import Mathlib

/-!
# upsmon: the status interpreter and the deadline tracker

A shallow embedding of `cmd/main.go` (functions `parseFlags` and `checkStatus`)
together with the two standard-library functions `parseFlags` calls
(`strings.Fields`, `strconv.ParseUint`) and the three `time` operations
`checkStatus` calls (`IsZero`, `Add`, `After`).

Modelling conventions.

* A Go `string` is modelled by the list of its code points (`List Char`), that
  is, by a string that is valid UTF-8.  `strings.Fields` ranges over code
  points; `strconv.ParseUint` ranges over bytes, and every byte of a code point
  above U+007F is at least 0x80, so it reaches the same `default` case of the
  digit switch as the code point does here.
* A Go multiple return `(v, err)` is a pair whose second component is
  `none` for `nil`.
* `uint64` arithmetic is `Nat` arithmetic reduced modulo `2 ^ 64`.
* A `time.Time` is the integer number of nanoseconds since the zero instant
  (January 1, year 1, 00:00:00 UTC), a `time.Duration` an integer number of
  nanoseconds.  One clock is read at most once per call of `checkStatus`; its
  reading is the argument `now`.
* The two swappable collaborators are `queryState`, whose result is an argument
  of `checkStatus`, and `runShutdown`, whose invocation is an `Event` in the
  trace `checkStatus` returns, next to the messages it prints.
-/

namespace Upsmon

/-! ## Standard library: `unicode.IsSpace`, `strings.Fields` -/

/-- White space as defined by Go's `unicode.IsSpace`: in Latin-1 the characters
`\t \n \v \f \r`, space, U+0085 and U+00A0; above Latin-1 the code points of
the `White_Space` table. -/
def IsSpace (r : Char) : Bool :=
  let n := r.toNat
  if n ≤ 0xFF then
    n == 0x09 || n == 0x0A || n == 0x0B || n == 0x0C || n == 0x0D || n == 0x20
      || n == 0x85 || n == 0xA0
  else
    n == 0x1680 || (0x2000 ≤ n && n ≤ 0x200A) || n == 0x2028 || n == 0x2029
      || n == 0x202F || n == 0x205F || n == 0x3000

/-- The loop of `strings.FieldsFunc(s, unicode.IsSpace)`: `start` is the field
being read (the characters from index `start` up to the current index, `none`
when `start < 0`), `spans` the fields already closed. -/
def fieldsLoop : List Char → Option (List Char) → List (List Char) → List (List Char)
  | [], none, spans => spans
  | [], some cur, spans => spans ++ [cur]
  | r :: rest, start, spans =>
    if IsSpace r then
      match start with
      | some cur => fieldsLoop rest none (spans ++ [cur])
      | none => fieldsLoop rest none spans
    else
      match start with
      | some cur => fieldsLoop rest (some (cur ++ [r])) spans
      | none => fieldsLoop rest (some [r]) spans

/-- Go's `strings.Fields`: the maximal runs of non-space characters of `s`, in
order.  On a string of ASCII characters Go takes a fast path over the table
`asciiSpace`, which marks the same six characters as `unicode.IsSpace` does
below U+0080, and yields the same fields. -/
def Fields (s : List Char) : List (List Char) :=
  fieldsLoop s none []

/-! ## Standard library: `strconv.ParseUint` -/

/-- The two errors `strconv.ParseUint` reports on a digit string:
`strconv.ErrSyntax` and `strconv.ErrRange`. -/
inductive NumError where
  | invalidDigits
  | outOfRange
  deriving DecidableEq

/-- Go's `lower(c) = c | ('x' - 'X')` on a byte. -/
def lower (c : Nat) : Nat := c ||| 0x20

/-- The digit switch of `ParseUint` on one character: `some d` for a decimal
digit or an ASCII letter, `none` for the `default` case. -/
def digitOf (c : Char) : Option Nat :=
  let b := c.toNat
  if 0x80 ≤ b then none
  else if 0x30 ≤ b ∧ b ≤ 0x39 then some (b - 0x30)
  else if 0x61 ≤ lower b ∧ lower b ≤ 0x7A then some (lower b - 0x61 + 10)
  else none

/-- The largest `uint64`. -/
def maxUint64 : Nat := 2 ^ 64 - 1

/-- The digit loop of `strconv.ParseUint` for an explicit base (no underscores):
`n` is the value read so far. -/
def parseUintLoop (base cutoff maxVal : Nat) : List Char → Nat → Nat × Option NumError
  | [], n => (n, none)
  | c :: rest, n =>
    match digitOf c with
    | none => (0, some NumError.invalidDigits)
    | some d =>
      if base ≤ d then (0, some NumError.invalidDigits)
      else if cutoff ≤ n then (maxVal, some NumError.outOfRange)
      else
        let n' := n * base % 2 ^ 64
        let n1 := (n' + d) % 2 ^ 64
        if n1 < n' ∨ maxVal < n1 then (maxVal, some NumError.outOfRange)
        else parseUintLoop base cutoff maxVal rest n1

/-- Go's `strconv.ParseUint(s, base, bitSize)` for `2 ≤ base ≤ 36` and
`1 ≤ bitSize ≤ 64`, the case `parseFlags` calls it in (`base = 2`,
`bitSize = 8`): the empty string is a syntax error, then the digit loop runs
with `cutoff = maxUint64/base + 1` and `maxVal = 1<<bitSize - 1`. -/
def ParseUint (s : List Char) (base bitSize : Nat) : Nat × Option NumError :=
  if s = [] then (0, some NumError.invalidDigits)
  else
    let cutoff := maxUint64 / base + 1
    let maxVal := (2 ^ bitSize % 2 ^ 64 + 2 ^ 64 - 1) % 2 ^ 64
    parseUintLoop base cutoff maxVal s 0

/-! ## `parseFlags` -/

/-- The errors `parseFlags` returns: its own `wrong columns count`, or the error
of `strconv.ParseUint`. -/
inductive ParseError where
  | wrongColumnsCount
  | num (e : NumError)
  deriving DecidableEq

/-- The function `parseFlags` of `cmd/main.go`. -/
def parseFlags (state : List Char) : Bool × Option ParseError :=
  let fields := Fields state
  match fields.getLast? with
  | none => (false, some ParseError.wrongColumnsCount)
  | some last =>
    match ParseUint last 2 8 with
    | (_, some err) => (false, some (ParseError.num err))
    | (flags, none) => (flags &&& 0b10000000 != 0, none)

/-- The test constant `onlineState`. -/
def onlineState : List Char := "(207.3 207.3 206.8 017 49.9 13.2 25.0 00001001".toList

/-- The test constant `offlineState`. -/
def offlineState : List Char := "(207.3 207.3 206.8 017 49.9 13.2 25.0 10001001".toList

/-! ## Time -/

/-- A `time.Time`: nanoseconds since the zero instant. -/
abbrev Time := Int

/-- A `time.Duration`: nanoseconds. -/
abbrev Duration := Int

/-- The zero value `time.Time{}`. -/
def zeroTime : Time := 0

/-- Go's `t.IsZero()`. -/
def IsZero (t : Time) : Bool := t == 0

/-- Go's `t.Add(d)`. -/
def Add (t : Time) (d : Duration) : Time := t + d

/-- Go's `t.After(u)`. -/
def After (t u : Time) : Bool := decide (u < t)

/-! ## `checkStatus` -/

/-- The type `config` of `cmd/main.go`. -/
structure config where
  debug : Bool
  trace : Bool
  refresh : Duration
  delay : Duration
  vendor : Nat
  product : Nat
  deriving DecidableEq

/-- An error returned by the collaborator `queryState` (opening, writing to or
reading from the device). -/
inductive QueryError where
  | openErr
  | writeErr
  | readErr
  deriving DecidableEq

/-- What one call of `checkStatus` does besides updating the deadline, in
program order: the messages of `showErr` and `showInfo`, and the call of
`runShutdown`. -/
inductive Event where
  | errFailedToQueryState (e : QueryError)
  | infoRawState (state : List Char)
  | errFailedToParseFlags (e : ParseError)
  | infoOfflineShutdownAt (deadline : Time)
  | infoWasOfflineReturnToOnline
  | infoTimeoutIsOver
  | runShutdown
  | infoUpsIsOffline
  | infoUpsIsOnline
  deriving DecidableEq

/-- The function `checkStatus` of `cmd/main.go`.  `query` is what `queryState`
returns in this call, `deadline` the value of `*deadline` on entry and `now`
the reading of `time.Now()`; the result is the value of `*deadline` on return
and the trace of the call. -/
def checkStatus (cfg : config) (query : List Char × Option QueryError)
    (deadline now : Time) : Time × List Event :=
  match query with
  | (_, some queryErr) => (deadline, [Event.errFailedToQueryState queryErr])
  | (state, none) =>
    let traced := if cfg.trace then [Event.infoRawState state] else []
    match parseFlags state with
    | (_, some parseErr) => (deadline, traced ++ [Event.errFailedToParseFlags parseErr])
    | (isOffline, none) =>
      if isOffline && IsZero deadline then
        let deadline1 := Add now cfg.delay
        (deadline1, traced ++ [Event.infoOfflineShutdownAt deadline1])
      else if !isOffline && !IsZero deadline then
        (zeroTime, traced ++ [Event.infoWasOfflineReturnToOnline])
      else
        let timeout :=
          if !IsZero deadline && After now deadline then
            [Event.infoTimeoutIsOver, Event.runShutdown]
          else []
        let debugged :=
          if cfg.debug then
            (if isOffline then [Event.infoUpsIsOffline] else [Event.infoUpsIsOnline])
          else []
        (deadline, traced ++ timeout ++ debugged)

/-- How many times the shutdown action is invoked in a trace. -/
def shutdownCount (events : List Event) : Nat :=
  events.count Event.runShutdown

/-- One iteration of the polling loop: what `queryState` returns and what
`time.Now()` reads in it. -/
structure Tick where
  query : List Char × Option QueryError
  now : Time
  deriving DecidableEq

/-- The loop of `main` (and the straight-line sequences of the tests): one call
of `checkStatus` per tick, the deadline carried from each call to the next.
Returns the deadline after the last tick and the trace of each tick. -/
def runTicks (cfg : config) : Time → List Tick → Time × List (List Event)
  | deadline, [] => (deadline, [])
  | deadline, tick :: rest =>
    let r := checkStatus cfg tick.query deadline tick.now
    let rs := runTicks cfg r.1 rest
    (rs.1, r.2 :: rs.2)

/-- The outcome of `parseFlags` on what `queryState` returned: `some b` when the
status was obtained and parsed as `b`, `none` when either step failed. -/
def statusOf (query : List Char × Option QueryError) : Option Bool :=
  match query with
  | (_, some _) => none
  | (state, none) =>
    match parseFlags state with
    | (_, some _) => none
    | (isOffline, none) => some isOffline

/-! ## Reading a digit string as a number -/

/-- The value of a string of binary digits read most-significant bit first,
continuing from the value `n` of the digits already read; a character other
than `1` counts as `0`. -/
def binaryValueFrom (n : Nat) : List Char → Nat
  | [] => n
  | c :: rest => binaryValueFrom (2 * n + (if c = '1' then 1 else 0)) rest

/-- The value of a string of binary digits read as a most-significant-bit-first
unsigned binary number. -/
def binaryValue (s : List Char) : Nat := binaryValueFrom 0 s

/-- A string of binary digits: every character is `0` or `1`. -/
def isBinary (s : List Char) : Prop := ∀ c ∈ s, c = '0' ∨ c = '1'

instance (s : List Char) : Decidable (isBinary s) := by
  unfold isBinary; infer_instance

/-- A valid binary numeral in range: a non-empty string of binary digits whose
value is at most 255. -/
def validNumeral (s : List Char) : Prop := s ≠ [] ∧ isBinary s ∧ binaryValue s ≤ 255

instance (s : List Char) : Decidable (validNumeral s) := by
  unfold validNumeral; infer_instance


/-! ## Sequences of ticks with short outages -/

/-- A run of offline ticks: a non-empty list of ticks that are all obtained and
parsed as offline. -/
def offlineRun (run : List Tick) : Prop :=
  run ≠ [] ∧ ∀ t ∈ run, statusOf t.query = some true

/-- In the sequence `pre ++ run ++ post`, `run` is a maximal run of consecutive
offline ticks: neither the tick before it nor the tick after it, if any, is
an offline tick. -/
def maximalOfflineRun (pre run post : List Tick) : Prop :=
  offlineRun run
    ∧ (∀ p, pre.getLast? = some p → statusOf p.query ≠ some true)
    ∧ (∀ n, post.head? = some n → statusOf n.query ≠ some true)

/-- Every maximal run of consecutive offline ticks of the sequence spans at
most `delay`: the time of its last tick minus the time of its first tick is at
most `delay`. -/
def shortOutages (delay : Duration) (ticks : List Tick) : Prop :=
  ∀ pre run post a b, ticks = pre ++ run ++ post → maximalOfflineRun pre run post →
    run.head? = some a → run.getLast? = some b → b.now - a.now ≤ delay

/-- The tick times of the sequence are non-decreasing. -/
def nonDecreasing (ticks : List Tick) : Prop :=
  ticks.Pairwise (fun x y => x.now ≤ y.now)

/-- The sequence of ticks of TestNoShutdown, in milliseconds from a start at
10000: online, online one second later, offline, offline 150ms later, online
150ms later, online two seconds later. -/
def testNoShutdownTicks : List Tick :=
  [⟨(onlineState, none), 10000⟩, ⟨(onlineState, none), 11000⟩,
    ⟨(offlineState, none), 11000⟩, ⟨(offlineState, none), 11150⟩,
    ⟨(onlineState, none), 11300⟩, ⟨(onlineState, none), 13300⟩]

/-- The most recent successfully parsed status of a sequence of ticks: `none`
when no tick of the sequence was obtained and parsed. -/
def lastStatus (ticks : List Tick) : Option Bool :=
  ticks.foldl (fun acc t =>
    match statusOf t.query with
    | some b => some b
    | none => acc) none

/-! ## Lemmas on `strconv.ParseUint` in base 2 with 8 bits -/

theorem char_eq_of_toNat {c : Char} {n : Nat} (h : c.toNat = n) : c = Char.ofNat n := by
  rw [← h, Char.ofNat_toNat]

theorem digitOf_zero : digitOf '0' = some 0 := by decide

theorem digitOf_one : digitOf '1' = some 1 := by decide

theorem digitOf_lt_two {c : Char} {d : Nat} (h : digitOf c = some d) (hd : d < 2) :
    c = '0' ∨ c = '1' := by
  unfold digitOf at h
  simp only at h
  split_ifs at h with h1 h2 h3
  · have hd' : c.toNat - 0x30 = d := by simpa using h
    have : c.toNat = 0x30 ∨ c.toNat = 0x31 := by omega
    rcases this with h0 | h0
    · left; exact char_eq_of_toNat h0
    · right; exact char_eq_of_toNat h0
  · have hd' : lower c.toNat - 0x61 + 10 = d := by simpa using h
    omega

theorem le_binaryValueFrom (s : List Char) (n : Nat) : n ≤ binaryValueFrom n s := by
  induction s generalizing n with
  | nil => simp [binaryValueFrom]
  | cons c rest ih =>
    simp only [binaryValueFrom]
    have := ih (2 * n + (if c = '1' then 1 else 0))
    omega

theorem binaryValueFrom_lt (s : List Char) (n : Nat) :
    binaryValueFrom n s < (n + 1) * 2 ^ s.length := by
  induction s generalizing n with
  | nil => simp [binaryValueFrom]
  | cons c rest ih =>
    simp only [binaryValueFrom, List.length_cons]
    have h := ih (2 * n + (if c = '1' then 1 else 0))
    have h2 : (2 * n + (if c = '1' then 1 else 0) + 1) * 2 ^ rest.length
        ≤ (2 * n + 2) * 2 ^ rest.length := by
      apply Nat.mul_le_mul_right
      split_ifs <;> omega
    have h3 : (n + 1) * 2 ^ (rest.length + 1) = (2 * n + 2) * 2 ^ rest.length := by ring
    omega

/-- On a string of binary digits the digit loop computes the binary value, and
reports a range error exactly when that value exceeds 255. -/
theorem parseUintLoop_binary (cutoff : Nat) (hc : 256 ≤ cutoff) (s : List Char)
    (hs : isBinary s) (n : Nat) (hn : n ≤ 255) :
    parseUintLoop 2 cutoff 255 s n =
      if binaryValueFrom n s ≤ 255 then (binaryValueFrom n s, none)
      else (255, some NumError.outOfRange) := by
  induction s generalizing n with
  | nil => simp [parseUintLoop, binaryValueFrom, hn]
  | cons c rest ih =>
    have hrest : isBinary rest := fun x hx => hs x (List.mem_cons_of_mem _ hx)
    have hcut : ¬ cutoff ≤ n := by omega
    have hmod : n * 2 % 2 ^ 64 = n * 2 := Nat.mod_eq_of_lt (by omega)
    rcases hs c (List.mem_cons_self _ _) with h0 | h1
    · subst h0
      have hmod1 : (n * 2 + 0) % 2 ^ 64 = n * 2 := by simpa using hmod
      have hval : binaryValueFrom n ('0' :: rest) = binaryValueFrom (n * 2) rest := by
        simp [binaryValueFrom, Nat.mul_comm]
      rw [hval]
      simp only [parseUintLoop, digitOf_zero, hmod, hmod1]
      by_cases hbig : 255 < n * 2
      · have hle := le_binaryValueFrom rest (n * 2)
        have hv : ¬ binaryValueFrom (n * 2) rest ≤ 255 := by omega
        simp [hcut, hbig, hv]
      · have := ih hrest (n * 2) (by omega)
        simp [hcut, hbig, this]
    · subst h1
      have hmod1 : (n * 2 + 1) % 2 ^ 64 = n * 2 + 1 := Nat.mod_eq_of_lt (by omega)
      have hval : binaryValueFrom n ('1' :: rest) = binaryValueFrom (n * 2 + 1) rest := by
        simp [binaryValueFrom, Nat.mul_comm]
      rw [hval]
      simp only [parseUintLoop, digitOf_one, hmod, hmod1]
      by_cases hbig : 255 < n * 2 + 1
      · have hle := le_binaryValueFrom rest (n * 2 + 1)
        have hv : ¬ binaryValueFrom (n * 2 + 1) rest ≤ 255 := by omega
        simp [hcut, hbig, hv]
      · have := ih hrest (n * 2 + 1) (by omega)
        simp [hcut, hbig, this]

/-- The digit loop in base 2 succeeds only on strings of binary digits. -/
theorem isBinary_of_parseUintLoop (cutoff maxVal : Nat) (s : List Char) (n v : Nat)
    (h : parseUintLoop 2 cutoff maxVal s n = (v, none)) : isBinary s := by
  induction s generalizing n with
  | nil => intro c hc; simp at hc
  | cons c rest ih =>
    unfold parseUintLoop at h
    cases hd : digitOf c with
    | none => simp [hd] at h
    | some d =>
      simp only [hd] at h
      split_ifs at h with h1 h2 h3
      · simp at h
      · simp at h
      · simp at h
      · intro x hx
        rcases List.mem_cons.mp hx with rfl | hx
        · exact digitOf_lt_two hd (by omega)
        · exact ih _ h x hx

theorem ParseUint_two_eight (s : List Char) (hs : s ≠ []) :
    ParseUint s 2 8 = parseUintLoop 2 (maxUint64 / 2 + 1) 255 s 0 := by
  have h : (2 ^ 8 % 2 ^ 64 + 2 ^ 64 - 1) % 2 ^ 64 = 255 := by norm_num
  unfold ParseUint
  rw [if_neg hs]
  simp only [h]

theorem cutoff_two_ge : 256 ≤ maxUint64 / 2 + 1 := by decide

/-- A valid numeral is parsed to its binary value. -/
theorem ParseUint_valid (s : List Char) (h : validNumeral s) :
    ParseUint s 2 8 = (binaryValue s, none) := by
  obtain ⟨hne, hbin, hval⟩ := h
  rw [ParseUint_two_eight s hne, parseUintLoop_binary _ cutoff_two_ge s hbin 0 (by omega)]
  unfold binaryValue at hval ⊢
  rw [if_pos hval]

/-- Anything but a valid numeral is an error of `ParseUint`. -/
theorem ParseUint_invalid (s : List Char) (h : ¬ validNumeral s) :
    ∃ v e, ParseUint s 2 8 = (v, some e) := by
  by_cases hne : s = []
  · exact ⟨0, NumError.invalidDigits, by simp [ParseUint, hne]⟩
  · rw [ParseUint_two_eight s hne]
    rcases hr : parseUintLoop 2 (maxUint64 / 2 + 1) 255 s 0 with ⟨v, _ | e⟩
    · exfalso
      have hbin := isBinary_of_parseUintLoop _ _ s 0 v hr
      rw [parseUintLoop_binary _ cutoff_two_ge s hbin 0 (by omega)] at hr
      by_cases hval : binaryValueFrom 0 s ≤ 255
      · exact h ⟨hne, hbin, hval⟩
      · rw [if_neg hval] at hr
        simp at hr
    · exact ⟨v, e, rfl⟩

set_option maxRecDepth 100000 in
/-- Below 256, bit 7 is set exactly from 128 on. -/
theorem land_128_ne_zero (v : Nat) (hv : v ≤ 255) : v &&& 0b10000000 ≠ 0 ↔ 128 ≤ v := by
  have h : ∀ w, w < 256 → (w &&& 0b10000000 ≠ 0 ↔ 128 ≤ w) := by decide
  exact h v (by omega)

/-! ## Lemmas on `parseFlags` -/

theorem parseFlags_no_fields (state : List Char) (h : Fields state = []) :
    parseFlags state = (false, some ParseError.wrongColumnsCount) := by
  simp [parseFlags, h]

theorem parseFlags_valid (state f : List Char) (hlast : (Fields state).getLast? = some f)
    (h : validNumeral f) :
    parseFlags state = (binaryValue f &&& 0b10000000 != 0, none) := by
  simp [parseFlags, hlast, ParseUint_valid f h]

theorem parseFlags_invalid (state f : List Char) (hlast : (Fields state).getLast? = some f)
    (h : ¬ validNumeral f) :
    ∃ e, parseFlags state = (false, some (ParseError.num e)) := by
  obtain ⟨v, e, he⟩ := ParseUint_invalid f h
  exact ⟨e, by simp [parseFlags, hlast, he]⟩

/-- A binary string of at most 8 digits has a value below 256. -/
theorem binaryValue_lt_256 (f : List Char) (hlen : f.length ≤ 8) : binaryValue f < 256 := by
  have h := binaryValueFrom_lt f 0
  have h2 : 2 ^ f.length ≤ 2 ^ 8 := Nat.pow_le_pow_right (by omega) hlen
  unfold binaryValue
  omega

theorem fieldsLoop_eq_nil (s : List Char) (start : Option (List Char))
    (spans : List (List Char)) :
    fieldsLoop s start spans = [] ↔
      spans = [] ∧ start = none ∧ ∀ c ∈ s, IsSpace c = true := by
  induction s generalizing start spans with
  | nil => cases start <;> simp [fieldsLoop]
  | cons r rest ih =>
    by_cases hr : IsSpace r = true
    · cases start <;> simp [fieldsLoop, hr, ih]
    · cases start <;> simp [fieldsLoop, hr, ih]

/-- A line has no fields exactly when it is empty or all white space. -/
theorem Fields_eq_nil (s : List Char) : Fields s = [] ↔ ∀ c ∈ s, IsSpace c = true := by
  simp [Fields, fieldsLoop_eq_nil]

theorem binaryValueFrom_append (a b : List Char) (n : Nat) :
    binaryValueFrom n (a ++ b) = binaryValueFrom (binaryValueFrom n a) b := by
  induction a generalizing n with
  | nil => rfl
  | cons c rest ih =>
    rw [List.cons_append]
    simp only [binaryValueFrom]
    exact ih _

theorem binaryValueFrom_eq (b : List Char) (n : Nat) :
    binaryValueFrom n b = n * 2 ^ b.length + binaryValue b := by
  induction b generalizing n with
  | nil => simp [binaryValueFrom, binaryValue]
  | cons c rest ih =>
    unfold binaryValue
    simp only [binaryValueFrom, List.length_cons]
    rw [ih (2 * n + _), ih (2 * 0 + _)]
    ring

theorem binaryValue_eq_zero (a : List Char) (ha : isBinary a) :
    binaryValue a = 0 ↔ ∀ c ∈ a, c = '0' := by
  induction a with
  | nil => simp [binaryValue, binaryValueFrom]
  | cons c rest ih =>
    have hrest : isBinary rest := fun x hx => ha x (List.mem_cons_of_mem _ hx)
    have hcons : binaryValue (c :: rest)
        = (if c = '1' then 1 else 0) * 2 ^ rest.length + binaryValue rest := by
      unfold binaryValue
      simp only [binaryValueFrom]
      rw [binaryValueFrom_eq]
      simp [binaryValue]
    have hpos : 0 < 2 ^ rest.length := Nat.pow_pos (by omega)
    rw [hcons, List.forall_mem_cons, ← ih hrest]
    rcases ha c (List.mem_cons_self _ _) with h0 | h1
    · subst h0
      simp
    · subst h1
      simp

/-- A binary string of more than 8 digits has a value of at most 255 exactly
when all digits before the last 8 are zeros. -/
theorem binaryValue_le_255_iff (f : List Char) (hbin : isBinary f) (hlen : 8 < f.length) :
    binaryValue f ≤ 255 ↔ ∀ c ∈ f.take (f.length - 8), c = '0' := by
  have hsplit : f = f.take (f.length - 8) ++ f.drop (f.length - 8) :=
    (List.take_append_drop _ f).symm
  have hdroplen : (f.drop (f.length - 8)).length = 8 := by
    rw [List.length_drop]; omega
  have htake : isBinary (f.take (f.length - 8)) :=
    fun c hc => hbin c (List.mem_of_mem_take hc)
  have hval : binaryValue f = binaryValue (f.take (f.length - 8)) * 2 ^ 8
      + binaryValue (f.drop (f.length - 8)) := by
    conv_lhs => rw [hsplit]
    unfold binaryValue
    rw [binaryValueFrom_append, binaryValueFrom_eq, hdroplen]
    rfl
  have hlow := binaryValue_lt_256 (f.drop (f.length - 8)) (by omega)
  rw [← binaryValue_eq_zero _ htake, hval]
  omega

/-! ## The status interpreter: claims C1 to C3 -/

/-- C1: for every status line whose last whitespace-delimited field is a string
of 1 to 8 characters, each 0 or 1, parseFlags returns no error, and its boolean
is true if and only if bit 7 (mask 0b10000000) of the field read as a
most-significant-bit-first binary number is set, that is, if and only if the
value of the field is at least 128; the test line ending in 10001001 yields
offline and the one ending in 00001001 yields online. -/
theorem parseFlags_bit7_of_binary_field (state f : List Char)
    (hlast : (Fields state).getLast? = some f)
    (hlen : 1 ≤ f.length ∧ f.length ≤ 8) (hbin : isBinary f) :
    (parseFlags state).2 = none
      ∧ ((parseFlags state).1 = true ↔ binaryValue f &&& 0b10000000 ≠ 0)
      ∧ ((parseFlags state).1 = true ↔ 128 ≤ binaryValue f)
      ∧ parseFlags offlineState = (true, none)
      ∧ parseFlags onlineState = (false, none) := by
  have hne : f ≠ [] := by
    intro h; rw [h] at hlen; simp at hlen
  have hlt := binaryValue_lt_256 f hlen.2
  have hvalid : validNumeral f := ⟨hne, hbin, by omega⟩
  have hp := parseFlags_valid state f hlast hvalid
  have hbit := land_128_ne_zero (binaryValue f) (by omega)
  refine ⟨by rw [hp], ?_, ?_, by decide, by decide⟩
  · rw [hp]; simp
  · rw [hp, ← hbit]; simp

/-- Witness of C1 at the test line `offlineState`, whose last field is
10001001. -/
theorem parseFlags_bit7_of_binary_field_witness :
    (Fields offlineState).getLast? = some "10001001".toList
      ∧ (parseFlags offlineState).2 = none
      ∧ ((parseFlags offlineState).1 = true ↔ 128 ≤ binaryValue "10001001".toList) :=
  have h := parseFlags_bit7_of_binary_field offlineState "10001001".toList
    (by decide) (by decide) (by decide)
  ⟨by decide, h.1, h.2.2.1⟩

/-- C2: parseFlags returns an error if and only if the line has no
whitespace-delimited fields (it is empty or all white space) or its last field
is not a valid binary numeral in range (a non-empty string of 0 and 1 characters
whose binary value is at most 255); whenever it returns an error the returned
boolean is false. -/
theorem parseFlags_error_iff (state : List Char) :
    ((parseFlags state).2 ≠ none ↔
        (Fields state = [] ∨
          ∃ f, (Fields state).getLast? = some f ∧ ¬ validNumeral f))
      ∧ (Fields state = [] ↔ ∀ c ∈ state, IsSpace c = true)
      ∧ ((parseFlags state).2 ≠ none → (parseFlags state).1 = false) := by
  refine ⟨?_, Fields_eq_nil state, ?_⟩
  · cases hl : (Fields state).getLast? with
    | none =>
      have hnil : Fields state = [] := List.getLast?_eq_none_iff.mp hl
      rw [parseFlags_no_fields state hnil]
      simp [hnil]
    | some f =>
      have hnn : Fields state ≠ [] := by
        intro h; rw [h] at hl; simp at hl
      by_cases hv : validNumeral f
      · rw [parseFlags_valid state f hl hv]
        simp [hnn, hv]
      · obtain ⟨e, he⟩ := parseFlags_invalid state f hl hv
        rw [he]
        simp [hv]
  · cases hl : (Fields state).getLast? with
    | none =>
      rw [parseFlags_no_fields state (List.getLast?_eq_none_iff.mp hl)]
      simp
    | some f =>
      by_cases hv : validNumeral f
      · rw [parseFlags_valid state f hl hv]
        simp
      · obtain ⟨e, he⟩ := parseFlags_invalid state f hl hv
        rw [he]
        simp

/-- C3, as stated, fails: the line `000000001` has a last field of 9 binary
digits, and parseFlags accepts it (value 1, online); so does `010000000`
(value 128, offline). -/
theorem parseFlags_nine_digits_accepted :
    (Fields "000000001".toList).getLast? = some "000000001".toList
      ∧ 8 < ("000000001".toList).length
      ∧ isBinary "000000001".toList
      ∧ parseFlags "000000001".toList = (false, none)
      ∧ parseFlags "010000000".toList = (true, none) := by
  decide

/-- C3, amended: the flag field is limited to a value of 8 bits, not to 8
characters.  For every status line whose last field has more than 8 characters,
parseFlags returns an error unless every character of the field is 0 or 1 and
its binary value is at most 255; for a field of binary digits that is the case
exactly when all digits before the last 8 are zeros. -/
theorem parseFlags_long_field (state f : List Char)
    (hlast : (Fields state).getLast? = some f) (hlen : 8 < f.length) :
    ((parseFlags state).2 ≠ none ↔ ¬ (isBinary f ∧ binaryValue f ≤ 255))
      ∧ (isBinary f →
          (binaryValue f ≤ 255 ↔ ∀ c ∈ f.take (f.length - 8), c = '0')) := by
  have hne : f ≠ [] := by
    intro h; rw [h] at hlen; simp at hlen
  refine ⟨?_, fun hbin => binaryValue_le_255_iff f hbin hlen⟩
  by_cases hv : validNumeral f
  · rw [parseFlags_valid state f hlast hv]
    simp [hv.2.1, hv.2.2]
  · obtain ⟨e, he⟩ := parseFlags_invalid state f hlast hv
    rw [he]
    have : ¬ (isBinary f ∧ binaryValue f ≤ 255) := fun h => hv ⟨hne, h.1, h.2⟩
    simp [this]

/-- Witness of the amended C3 at the line `100000000`: 9 binary digits of value
256, rejected. -/
theorem parseFlags_long_field_witness :
    (Fields "100000000".toList).getLast? = some "100000000".toList
      ∧ 8 < ("100000000".toList).length
      ∧ ((parseFlags "100000000".toList).2 ≠ none ↔
          ¬ (isBinary "100000000".toList ∧ binaryValue "100000000".toList ≤ 255)) :=
  ⟨by decide, by decide,
    (parseFlags_long_field "100000000".toList "100000000".toList (by decide) (by decide)).1⟩

/-! ## Lemmas on one call of `checkStatus` -/

/-- A tick whose status was not obtained or not parsed leaves the deadline as it
was and does not invoke shutdown. -/
theorem checkStatus_of_failed (cfg : config) (query : List Char × Option QueryError)
    (deadline now : Time) (h : statusOf query = none) :
    (checkStatus cfg query deadline now).1 = deadline
      ∧ shutdownCount (checkStatus cfg query deadline now).2 = 0 := by
  obtain ⟨state, _ | e⟩ := query
  · rcases hp : parseFlags state with ⟨b, _ | pe⟩
    · simp [statusOf, hp] at h
    · cases ht : cfg.trace <;>
        simp [checkStatus, hp, ht, shutdownCount, List.count_cons]
  · simp [checkStatus, shutdownCount, List.count_cons]

/-- The deadline after a tick whose status was parsed as `b`. -/
theorem checkStatus_deadline (cfg : config) (query : List Char × Option QueryError)
    (deadline now : Time) (b : Bool) (h : statusOf query = some b) :
    (checkStatus cfg query deadline now).1 =
      if b = true ∧ deadline = zeroTime then now + cfg.delay
      else if b = false ∧ deadline ≠ zeroTime then zeroTime
      else deadline := by
  obtain ⟨state, _ | e⟩ := query
  · rcases hp : parseFlags state with ⟨b', _ | pe⟩
    · simp [statusOf, hp] at h
      subst h
      by_cases hd : deadline = 0 <;> cases b' <;>
        simp [checkStatus, hp, IsZero, Add, zeroTime, hd]
    · simp [statusOf, hp] at h
  · simp [statusOf] at h

/-- The number of shutdown invocations in a tick whose status was parsed as
`b`. -/
theorem checkStatus_shutdownCount (cfg : config) (query : List Char × Option QueryError)
    (deadline now : Time) (b : Bool) (h : statusOf query = some b) :
    shutdownCount (checkStatus cfg query deadline now).2 =
      if b = true ∧ deadline ≠ zeroTime ∧ deadline < now then 1 else 0 := by
  obtain ⟨state, _ | e⟩ := query
  · rcases hp : parseFlags state with ⟨b', _ | pe⟩
    · simp [statusOf, hp] at h
      subst h
      by_cases hd : deadline = 0 <;> by_cases hn : deadline < now <;>
        cases b' <;> cases ht : cfg.trace <;> cases hg : cfg.debug <;>
        simp [checkStatus, hp, IsZero, Add, After, zeroTime, hd, hn, ht, hg, shutdownCount,
          List.count_cons, List.count_append]
    · simp [statusOf, hp] at h
  · simp [statusOf] at h

theorem statusOf_eq_some_iff (query : List Char × Option QueryError) (b : Bool) :
    statusOf query = some b ↔ query.2 = none ∧ parseFlags query.1 = (b, none) := by
  obtain ⟨state, _ | e⟩ := query
  · rcases hp : parseFlags state with ⟨b', _ | pe⟩ <;> simp [statusOf, hp]
  · simp [statusOf]

theorem statusOf_eq_none_iff (query : List Char × Option QueryError) :
    statusOf query = none ↔ query.2 ≠ none ∨ (parseFlags query.1).2 ≠ none := by
  obtain ⟨state, _ | e⟩ := query
  · rcases hp : parseFlags state with ⟨b', _ | pe⟩ <;> simp [statusOf, hp]
  · simp [statusOf]

theorem statusOf_test_lines :
    statusOf (onlineState, none) = some false ∧ statusOf (offlineState, none) = some true := by
  decide

/-! ## One tick of the deadline tracker: claims C4 to C6 -/

/-- C4: in every tick of checkStatus the shutdown action is invoked if and only
if the status was obtained and parsed as offline, the deadline on entry is set
and the current time is strictly after the deadline; it is invoked at most once;
a tick at now = deadline does not shut down, and an online tick never does. -/
theorem checkStatus_shutdown_iff (cfg : config) (query : List Char × Option QueryError)
    (deadline now : Time) :
    (0 < shutdownCount (checkStatus cfg query deadline now).2 ↔
        (query.2 = none ∧ parseFlags query.1 = (true, none))
          ∧ deadline ≠ zeroTime ∧ deadline < now)
      ∧ shutdownCount (checkStatus cfg query deadline now).2 ≤ 1
      ∧ (now = deadline → shutdownCount (checkStatus cfg query deadline now).2 = 0)
      ∧ (query.2 = none ∧ parseFlags query.1 = (false, none) →
          shutdownCount (checkStatus cfg query deadline now).2 = 0) := by
  rw [← statusOf_eq_some_iff, ← statusOf_eq_some_iff]
  cases hs : statusOf query with
  | none =>
    have h := (checkStatus_of_failed cfg query deadline now hs).2
    simp [h]
  | some b =>
    have h := checkStatus_shutdownCount cfg query deadline now b hs
    rw [h]
    cases b
    · simp
    · refine ⟨?_, ?_, ?_, ?_⟩
      · by_cases hc : deadline ≠ zeroTime ∧ deadline < now
        · simp [hc]
        · rw [if_neg (fun h => hc h.2)]
          simp only [lt_irrefl, false_iff, not_and]
          intro _ h1 h2
          exact hc ⟨h1, h2⟩
      · split_ifs <;> omega
      · intro hnow
        subst hnow
        simp
      · simp

/-- Witness of C4: the offline test line, a deadline of 1500 and the clock at
1501 give one shutdown. -/
theorem checkStatus_shutdown_iff_witness :
    shutdownCount (checkStatus ⟨false, false, 10, 500, 0, 0⟩ (offlineState, none) 1500 1501).2 = 1
      ∧ (0 < shutdownCount
            (checkStatus ⟨false, false, 10, 500, 0, 0⟩ (offlineState, none) 1500 1501).2 ↔
          (((offlineState, (none : Option QueryError)).2 = none
              ∧ parseFlags (offlineState, (none : Option QueryError)).1 = (true, none))
            ∧ (1500 : Time) ≠ zeroTime ∧ (1500 : Time) < 1501)) :=
  ⟨by decide,
    (checkStatus_shutdown_iff ⟨false, false, 10, 500, 0, 0⟩ (offlineState, none) 1500 1501).1⟩

/-- C5: after a tick whose status is obtained and parsed, the deadline is
now + delay when it was unset on entry and the status is offline, unset when it
was set on entry and the status is online, and the deadline on entry in every
other case. -/
theorem checkStatus_deadline_cases (cfg : config) (query : List Char × Option QueryError)
    (deadline now : Time) (isOffline : Bool)
    (hq : query.2 = none) (hp : parseFlags query.1 = (isOffline, none)) :
    (isOffline = true → deadline = zeroTime →
        (checkStatus cfg query deadline now).1 = now + cfg.delay)
      ∧ (isOffline = false → deadline ≠ zeroTime →
        (checkStatus cfg query deadline now).1 = zeroTime)
      ∧ ((isOffline = false ∧ deadline = zeroTime) ∨ (isOffline = true ∧ deadline ≠ zeroTime) →
        (checkStatus cfg query deadline now).1 = deadline) := by
  have hs : statusOf query = some isOffline := (statusOf_eq_some_iff query isOffline).mpr ⟨hq, hp⟩
  rw [checkStatus_deadline cfg query deadline now isOffline hs]
  refine ⟨?_, ?_, ?_⟩
  · intro h1 h2; simp [h1, h2]
  · intro h1 h2; simp [h1, h2]
  · rintro (⟨h1, h2⟩ | ⟨h1, h2⟩) <;> simp [h1, h2]

/-- Witness of C5: the offline test line with an unset deadline at time 1000 and
a delay of 500 sets the deadline to 1500. -/
theorem checkStatus_deadline_cases_witness :
    (checkStatus ⟨false, false, 10, 500, 0, 0⟩ (offlineState, none) zeroTime 1000).1 = 1500 :=
  (checkStatus_deadline_cases ⟨false, false, 10, 500, 0, 0⟩ (offlineState, none) zeroTime 1000
    true rfl (by decide)).1 rfl rfl

/-- C6: a failed tick is a no-op: if queryState returns an error, or a line on
which parseFlags returns an error, checkStatus leaves the deadline as it was on
entry and does not invoke the shutdown action. -/
theorem checkStatus_failed_noop (cfg : config) (query : List Char × Option QueryError)
    (deadline now : Time)
    (h : query.2 ≠ none ∨ (parseFlags query.1).2 ≠ none) :
    (checkStatus cfg query deadline now).1 = deadline
      ∧ shutdownCount (checkStatus cfg query deadline now).2 = 0 :=
  checkStatus_of_failed cfg query deadline now ((statusOf_eq_none_iff query).mpr h)

/-- Witness of C6: a malformed line, with a deadline that has passed. -/
theorem checkStatus_failed_noop_witness :
    (parseFlags "25.0 1021".toList).2 ≠ none
      ∧ (checkStatus ⟨true, true, 10, 500, 0, 0⟩ ("25.0 1021".toList, none) 1500 9000).1 = 1500
      ∧ shutdownCount
          (checkStatus ⟨true, true, 10, 500, 0, 0⟩ ("25.0 1021".toList, none) 1500 9000).2 = 0 :=
  ⟨by decide,
    checkStatus_failed_noop ⟨true, true, 10, 500, 0, 0⟩ ("25.0 1021".toList, none) 1500 9000
      (Or.inr (by decide))⟩

/-! ## Lemmas on sequences of ticks -/

theorem runTicks_nil (cfg : config) (deadline : Time) :
    runTicks cfg deadline [] = (deadline, []) := rfl

theorem runTicks_cons (cfg : config) (deadline : Time) (tick : Tick) (rest : List Tick) :
    runTicks cfg deadline (tick :: rest) =
      ((runTicks cfg (checkStatus cfg tick.query deadline tick.now).1 rest).1,
        (checkStatus cfg tick.query deadline tick.now).2 ::
          (runTicks cfg (checkStatus cfg tick.query deadline tick.now).1 rest).2) := rfl

theorem runTicks_append_deadline (cfg : config) (deadline : Time) (a b : List Tick) :
    (runTicks cfg deadline (a ++ b)).1 = (runTicks cfg (runTicks cfg deadline a).1 b).1 := by
  induction a generalizing deadline with
  | nil => rfl
  | cons tick rest ih =>
    rw [List.cons_append, runTicks_cons, runTicks_cons]
    exact ih _

/-- While every tick reads offline a set deadline stays as it is. -/
theorem runTicks_offline_deadline (cfg : config) (deadline : Time) (ticks : List Tick)
    (hset : deadline ≠ zeroTime) (hall : ∀ t ∈ ticks, statusOf t.query = some true) :
    (runTicks cfg deadline ticks).1 = deadline := by
  induction ticks with
  | nil => rfl
  | cons tick rest ih =>
    have h1 := checkStatus_deadline cfg tick.query deadline tick.now true
      (hall tick (List.mem_cons_self _ _))
    have h2 : (checkStatus cfg tick.query deadline tick.now).1 = deadline := by
      rw [h1]; simp [hset]
    rw [runTicks_cons, h2]
    exact ih (fun t ht => hall t (List.mem_cons_of_mem _ ht))

/-- While no tick is parsed as offline an unset deadline stays unset. -/
theorem runTicks_not_offline_deadline (cfg : config) (ticks : List Tick)
    (hall : ∀ t ∈ ticks, statusOf t.query ≠ some true) :
    (runTicks cfg zeroTime ticks).1 = zeroTime := by
  induction ticks with
  | nil => rfl
  | cons tick rest ih =>
    have h2 : (checkStatus cfg tick.query zeroTime tick.now).1 = zeroTime := by
      cases hs : statusOf tick.query with
      | none => exact (checkStatus_of_failed cfg tick.query zeroTime tick.now hs).1
      | some b =>
        cases b
        · rw [checkStatus_deadline cfg tick.query zeroTime tick.now false hs]; simp
        · exact absurd hs (hall tick (List.mem_cons_self _ _))
    rw [runTicks_cons, h2]
    exact ih (fun t ht => hall t (List.mem_cons_of_mem _ ht))

/-! ## Episodes: claims C7, C9 and C10 -/

/-- C7: grace-period respect.  Starting from an unset deadline, let a tick at
time T read offline with grace delay D, T + D not being the zero time, followed
by any number of further ticks that all read offline.  Then the deadline is
T + D after the first tick and after every one of the further ticks, a later
offline tick at any time t ≤ T + D does not invoke shutdown and one at any time
t > T + D does.  In the sequence of TestWithShutdown (online, offline, offline
again at least one second later, delay 500ms) the shutdown counts of the three
ticks are 0, 0 and 1. -/
theorem grace_period_respected (cfg : config) (T : Time)
    (first : List Char × Option QueryError) (further : List Tick)
    (hfirst : statusOf first = some true) (hne : T + cfg.delay ≠ zeroTime)
    (hall : ∀ t ∈ further, statusOf t.query = some true) :
    (checkStatus cfg first zeroTime T).1 = T + cfg.delay
      ∧ shutdownCount (checkStatus cfg first zeroTime T).2 = 0
      ∧ (∀ k, (runTicks cfg (T + cfg.delay) (further.take k)).1 = T + cfg.delay)
      ∧ (∀ later : Tick, statusOf later.query = some true →
          (later.now ≤ T + cfg.delay →
            shutdownCount (checkStatus cfg later.query
              (runTicks cfg (T + cfg.delay) further).1 later.now).2 = 0)
          ∧ (T + cfg.delay < later.now →
            shutdownCount (checkStatus cfg later.query
              (runTicks cfg (T + cfg.delay) further).1 later.now).2 = 1))
      ∧ (∀ (c : config) (t0 t1 t2 : Time), c.delay = 500000000 →
          t1 + 500000000 ≠ zeroTime → t1 + 1000000000 ≤ t2 →
          (runTicks c zeroTime
              [⟨(onlineState, none), t0⟩, ⟨(offlineState, none), t1⟩,
                ⟨(offlineState, none), t2⟩]).2.map shutdownCount = [0, 0, 1]) := by
  refine ⟨?_, ?_, ?_, ?_, ?_⟩
  · rw [checkStatus_deadline cfg first zeroTime T true hfirst]; simp
  · rw [checkStatus_shutdownCount cfg first zeroTime T true hfirst]; simp
  · intro k
    exact runTicks_offline_deadline cfg _ _ hne
      (fun t ht => hall t (List.mem_of_mem_take ht))
  · intro later hlater
    rw [runTicks_offline_deadline cfg _ _ hne hall,
      checkStatus_shutdownCount cfg later.query _ later.now true hlater]
    constructor
    · intro hle
      rw [if_neg]
      intro h
      exact absurd h.2.2 (not_lt.mpr hle)
    · intro hlt
      rw [if_pos ⟨rfl, hne, hlt⟩]
  · intro c t0 t1 t2 hdelay hne' hsleep
    have hon := statusOf_test_lines.1
    have hoff := statusOf_test_lines.2
    have d0 : (checkStatus c (onlineState, none) zeroTime t0).1 = zeroTime := by
      rw [checkStatus_deadline c _ zeroTime t0 false hon]; simp
    have d1 : (checkStatus c (offlineState, none) zeroTime t1).1 = t1 + 500000000 := by
      rw [checkStatus_deadline c _ zeroTime t1 true hoff]; simp [hdelay]
    have s0 : shutdownCount (checkStatus c (onlineState, none) zeroTime t0).2 = 0 := by
      rw [checkStatus_shutdownCount c _ zeroTime t0 false hon]; simp
    have s1 : shutdownCount (checkStatus c (offlineState, none) zeroTime t1).2 = 0 := by
      rw [checkStatus_shutdownCount c _ zeroTime t1 true hoff]; simp
    have s2 : shutdownCount
        (checkStatus c (offlineState, none) (t1 + 500000000) t2).2 = 1 := by
      rw [checkStatus_shutdownCount c _ _ t2 true hoff]
      have hlt : t1 + 500000000 < t2 := by linarith
      rw [if_pos ⟨rfl, hne', hlt⟩]
    simp only [runTicks_cons, runTicks_nil, d0, d1, List.map_cons, List.map_nil, s0, s1, s2]

/-- Witness of C7: delay 500, offline at 1000, two further offline ticks, then
a tick at 1501. -/
theorem grace_period_respected_witness :
    (checkStatus ⟨false, false, 10, 500, 0, 0⟩ (offlineState, none) zeroTime 1000).1 = 1000 + 500
      ∧ shutdownCount (checkStatus ⟨false, false, 10, 500, 0, 0⟩ (offlineState, none)
          (runTicks ⟨false, false, 10, 500, 0, 0⟩ (1000 + 500)
            [⟨(offlineState, none), 1200⟩, ⟨(offlineState, none), 1500⟩]).1 1501).2 = 1 :=
  have h := grace_period_respected ⟨false, false, 10, 500, 0, 0⟩ 1000 (offlineState, none)
    [⟨(offlineState, none), 1200⟩, ⟨(offlineState, none), 1500⟩]
    (by decide) (by decide) (by decide)
  ⟨h.1, (h.2.2.2.1 ⟨(offlineState, none), 1501⟩ (by decide)).2 (by decide)⟩

/-- C9: recovery resets the episode.  For every set deadline d and every
current time, an online tick clears the deadline without invoking shutdown;
after any number of ticks that are not parsed as offline the deadline is still
unset, and the next tick parsed as offline, at time T2, sets the deadline to
T2 + delay, whatever d was, and does not invoke shutdown. -/
theorem recovery_resets_episode (cfg : config) (d now T2 : Time)
    (online offline : List Char × Option QueryError) (between : List Tick)
    (hd : d ≠ zeroTime) (hon : statusOf online = some false)
    (hbetween : ∀ t ∈ between, statusOf t.query ≠ some true)
    (hoff : statusOf offline = some true) :
    (checkStatus cfg online d now).1 = zeroTime
      ∧ shutdownCount (checkStatus cfg online d now).2 = 0
      ∧ (runTicks cfg (checkStatus cfg online d now).1 between).1 = zeroTime
      ∧ (checkStatus cfg offline
            (runTicks cfg (checkStatus cfg online d now).1 between).1 T2).1 = T2 + cfg.delay
      ∧ shutdownCount (checkStatus cfg offline
            (runTicks cfg (checkStatus cfg online d now).1 between).1 T2).2 = 0 := by
  have h1 : (checkStatus cfg online d now).1 = zeroTime := by
    rw [checkStatus_deadline cfg online d now false hon]; simp [hd]
  have h2 : (runTicks cfg (checkStatus cfg online d now).1 between).1 = zeroTime := by
    rw [h1]; exact runTicks_not_offline_deadline cfg between hbetween
  refine ⟨h1, ?_, h2, ?_, ?_⟩
  · rw [checkStatus_shutdownCount cfg online d now false hon]; simp
  · rw [h2, checkStatus_deadline cfg offline zeroTime T2 true hoff]; simp
  · rw [h2, checkStatus_shutdownCount cfg offline zeroTime T2 true hoff]; simp

/-- Witness of C9: deadline 1500 already passed at 2000, online, one failed
tick, then offline at 7000 with delay 500. -/
theorem recovery_resets_episode_witness :
    (checkStatus ⟨false, false, 10, 500, 0, 0⟩ (onlineState, none) 1500 2000).1 = zeroTime
      ∧ (checkStatus ⟨false, false, 10, 500, 0, 0⟩ (offlineState, none)
          (runTicks ⟨false, false, 10, 500, 0, 0⟩
            (checkStatus ⟨false, false, 10, 500, 0, 0⟩ (onlineState, none) 1500 2000).1
            [⟨([], some QueryError.readErr), 3000⟩]).1 7000).1 = 7000 + 500 :=
  have h := recovery_resets_episode ⟨false, false, 10, 500, 0, 0⟩ 1500 2000 7000
    (onlineState, none) (offlineState, none) [⟨([], some QueryError.readErr), 3000⟩]
    (by decide) (by decide) (by decide) (by decide)
  ⟨h.1, h.2.2.2.1⟩

/-- C10: shutdown is never invoked on the tick that goes offline.  For every
grace delay, zero and negative ones included, a tick that enters with an unset
deadline and reads offline sets the deadline to now + delay and does not invoke
the shutdown action. -/
theorem no_shutdown_on_going_offline (cfg : config) (query : List Char × Option QueryError)
    (now : Time) (hq : query.2 = none) (hp : parseFlags query.1 = (true, none)) :
    (checkStatus cfg query zeroTime now).1 = now + cfg.delay
      ∧ shutdownCount (checkStatus cfg query zeroTime now).2 = 0 := by
  have hs : statusOf query = some true := (statusOf_eq_some_iff query true).mpr ⟨hq, hp⟩
  constructor
  · rw [checkStatus_deadline cfg query zeroTime now true hs]; simp
  · rw [checkStatus_shutdownCount cfg query zeroTime now true hs]; simp

/-- Witness of C10: a delay of -500 at time 1000 sets a deadline of 500, already
in the past, and does not shut down. -/
theorem no_shutdown_on_going_offline_witness :
    (checkStatus ⟨false, false, 10, -500, 0, 0⟩ (offlineState, none) zeroTime 1000).1
        = 1000 + (-500)
      ∧ shutdownCount
          (checkStatus ⟨false, false, 10, -500, 0, 0⟩ (offlineState, none) zeroTime 1000).2 = 0 :=
  no_shutdown_on_going_offline ⟨false, false, 10, -500, 0, 0⟩ (offlineState, none) 1000
    rfl (by decide)

/-! ## Short outages: claim C8 -/

theorem runTicks_append_traces (cfg : config) (deadline : Time) (a b : List Tick) :
    (runTicks cfg deadline (a ++ b)).2 =
      (runTicks cfg deadline a).2 ++ (runTicks cfg (runTicks cfg deadline a).1 b).2 := by
  induction a generalizing deadline with
  | nil => rfl
  | cons tick rest ih =>
    rw [List.cons_append, runTicks_cons, runTicks_cons]
    simp only [List.cons_append]
    rw [ih]

/-- Every trace of a run is the trace of one of its ticks, called with the
deadline left by the ticks before it. -/
theorem mem_runTicks_traces (cfg : config) (deadline : Time) (ticks : List Tick)
    (events : List Event) (h : events ∈ (runTicks cfg deadline ticks).2) :
    ∃ pre tick post, ticks = pre ++ tick :: post ∧
      events = (checkStatus cfg tick.query (runTicks cfg deadline pre).1 tick.now).2 := by
  induction ticks generalizing deadline with
  | nil => simp [runTicks_nil] at h
  | cons t rest ih =>
    rw [runTicks_cons] at h
    rcases List.mem_cons.mp h with h0 | h1
    · exact ⟨[], t, rest, rfl, h0⟩
    · obtain ⟨pre, tick, post, hsplit, hev⟩ := ih _ h1
      refine ⟨t :: pre, tick, post, by rw [hsplit]; rfl, ?_⟩
      rw [runTicks_cons]
      exact hev

/-- A run of offline ticks with no offline tick right after it spans at most the
delay, whatever is before it. -/
theorem span_le_of_right_maximal (delay : Duration) (ticks : List Tick)
    (hmono : nonDecreasing ticks) (hshort : shortOutages delay ticks)
    (pre run post : List Tick) (a b : Tick)
    (hsplit : ticks = pre ++ run ++ post) (hrun : offlineRun run)
    (hright : ∀ n, post.head? = some n → statusOf n.query ≠ some true)
    (ha : run.head? = some a) (hb : run.getLast? = some b) :
    b.now - a.now ≤ delay := by
  induction pre using List.reverseRecOn generalizing run a with
  | nil => exact hshort [] run post a b hsplit ⟨hrun, by simp, hright⟩ ha hb
  | append_singleton pre' p ih =>
    by_cases hp : statusOf p.query = some true
    · have hsplit' : ticks = pre' ++ (p :: run) ++ post := by simp [hsplit]
      have hrun' : offlineRun (p :: run) := by
        refine ⟨by simp, ?_⟩
        intro t ht
        rcases List.mem_cons.mp ht with rfl | ht
        · exact hp
        · exact hrun.2 t ht
      have hb' : (p :: run).getLast? = some b := by
        obtain ⟨x, xs, rfl⟩ := List.exists_cons_of_ne_nil hrun.1
        rw [List.getLast?_cons_cons]; exact hb
      have h := ih (p :: run) p hsplit' hrun' rfl hb'
      have hmem : a ∈ run := List.mem_of_mem_head? ha
      have hpa : p.now ≤ a.now := by
        unfold nonDecreasing at hmono
        rw [hsplit] at hmono
        have h1 := (List.pairwise_append.mp hmono).1
        exact (List.pairwise_append.mp h1).2.2 p (by simp) a hmem
      linarith
    · refine hshort (pre' ++ [p]) run post a b hsplit ⟨hrun, ?_, hright⟩ ha hb
      intro q hq
      rw [List.getLast?_concat] at hq
      cases hq
      exact hp

/-- Every run of consecutive offline ticks, maximal or not, spans at most the
delay. -/
theorem span_le_of_run (delay : Duration) (ticks : List Tick)
    (hmono : nonDecreasing ticks) (hshort : shortOutages delay ticks)
    (pre run post : List Tick) (a b : Tick)
    (hsplit : ticks = pre ++ run ++ post) (hrun : offlineRun run)
    (ha : run.head? = some a) (hb : run.getLast? = some b) :
    b.now - a.now ≤ delay := by
  induction post generalizing run b with
  | nil =>
    exact span_le_of_right_maximal delay ticks hmono hshort pre run [] a b hsplit hrun
      (by simp) ha hb
  | cons n post' ih =>
    by_cases hn : statusOf n.query = some true
    · have hsplit' : ticks = pre ++ (run ++ [n]) ++ post' := by simp [hsplit]
      have hrun' : offlineRun (run ++ [n]) := by
        refine ⟨by simp, ?_⟩
        intro t ht
        rcases List.mem_append.mp ht with ht | ht
        · exact hrun.2 t ht
        · rw [List.mem_singleton] at ht; rw [ht]; exact hn
      have ha' : (run ++ [n]).head? = some a := by
        rw [List.head?_append_of_ne_nil _ hrun.1]; exact ha
      have h := ih (run ++ [n]) n hsplit' hrun' ha' (List.getLast?_concat _)
      have hmem : b ∈ run := List.mem_of_mem_getLast? hb
      have hbn : b.now ≤ n.now := by
        unfold nonDecreasing at hmono
        rw [hsplit] at hmono
        exact (List.pairwise_append.mp hmono).2.2 b
          (List.mem_append_right _ hmem) n (List.mem_cons_self _ _)
      linarith
    · refine span_le_of_right_maximal delay ticks hmono hshort pre run (n :: post') a b
        hsplit hrun ?_ ha hb
      intro m hm
      simp only [List.head?_cons, Option.some.injEq] at hm
      rw [← hm]
      exact hn

/-- A deadline that is set was set by the first tick of a run of offline ticks
that ends the sequence run so far. -/
theorem deadline_set_by_run (cfg : config) (pre : List Tick)
    (hparsed : ∀ t ∈ pre, statusOf t.query ≠ none)
    (hd : (runTicks cfg zeroTime pre).1 ≠ zeroTime) :
    ∃ p1 run a, pre = p1 ++ run ∧ offlineRun run ∧ run.head? = some a ∧
      (runTicks cfg zeroTime pre).1 = a.now + cfg.delay := by
  induction pre using List.reverseRecOn with
  | nil => exact absurd rfl hd
  | append_singleton pre' t ih =>
    have hstep : (runTicks cfg zeroTime (pre' ++ [t])).1 =
        (checkStatus cfg t.query (runTicks cfg zeroTime pre').1 t.now).1 := by
      rw [runTicks_append_deadline]; rfl
    have hparsed' : ∀ x ∈ pre', statusOf x.query ≠ none :=
      fun x hx => hparsed x (List.mem_append_left _ hx)
    cases hs : statusOf t.query with
    | none => exact absurd hs (hparsed t (by simp))
    | some b =>
      rw [hstep, checkStatus_deadline cfg t.query _ t.now b hs] at hd ⊢
      cases b
      · exfalso
        by_cases hd' : (runTicks cfg zeroTime pre').1 = zeroTime
        · simp [hd'] at hd
        · simp [hd'] at hd
      · by_cases hd' : (runTicks cfg zeroTime pre').1 = zeroTime
        · exact ⟨pre', [t], t, rfl, ⟨by simp, by simpa using hs⟩, rfl, by simp [hd']⟩
        · obtain ⟨p1, run, a, hsplit, hrun, ha, hval⟩ := ih hparsed' hd'
          refine ⟨p1, run ++ [t], a, by rw [hsplit, List.append_assoc], ⟨by simp, ?_⟩, ?_, ?_⟩
          · intro x hx
            rcases List.mem_append.mp hx with hx | hx
            · exact hrun.2 x hx
            · rw [List.mem_singleton] at hx; rw [hx]; exact hs
          · rw [List.head?_append_of_ne_nil _ hrun.1]; exact ha
          · rw [if_neg (fun h => hd' h.2), if_neg (by simp)]
            exact hval

/-- With short outages no tick of the sequence invokes shutdown. -/
theorem no_shutdown_at_tick (cfg : config) (ticks : List Tick)
    (hparsed : ∀ t ∈ ticks, statusOf t.query ≠ none)
    (hmono : nonDecreasing ticks) (hshort : shortOutages cfg.delay ticks)
    (pre post : List Tick) (tick : Tick) (hsplit : ticks = pre ++ tick :: post) :
    shutdownCount (checkStatus cfg tick.query (runTicks cfg zeroTime pre).1 tick.now).2 = 0 := by
  cases hs : statusOf tick.query with
  | none => exact (checkStatus_of_failed cfg tick.query _ tick.now hs).2
  | some b =>
    rw [checkStatus_shutdownCount cfg tick.query _ tick.now b hs]
    rw [if_neg]
    rintro ⟨hb, hd, hlt⟩
    subst hb
    have hparsed' : ∀ x ∈ pre, statusOf x.query ≠ none :=
      fun x hx => hparsed x (by rw [hsplit]; exact List.mem_append_left _ hx)
    obtain ⟨p1, run, a, hpre, hrun, ha, hval⟩ := deadline_set_by_run cfg pre hparsed' hd
    have hsplit' : ticks = p1 ++ (run ++ [tick]) ++ post := by
      rw [hsplit, hpre]; simp
    have hrun' : offlineRun (run ++ [tick]) := by
      refine ⟨by simp, ?_⟩
      intro x hx
      rcases List.mem_append.mp hx with hx | hx
      · exact hrun.2 x hx
      · rw [List.mem_singleton] at hx; rw [hx]; exact hs
    have ha' : (run ++ [tick]).head? = some a := by
      rw [List.head?_append_of_ne_nil _ hrun.1]; exact ha
    have hspan := span_le_of_run cfg.delay ticks hmono hshort p1 (run ++ [tick]) post a tick
      hsplit' hrun' ha' (List.getLast?_concat _)
    rw [hval] at hlt
    linarith

/-- C8: no shutdown for short outages.  For every sequence of ticks starting
from an unset deadline, with non-decreasing tick times and every status obtained
and parsed, if every maximal run of consecutive offline ticks spans at most the
grace delay, then the shutdown action is invoked on no tick of the sequence, and
after every online tick the deadline is unset. -/
theorem no_shutdown_for_short_outages (cfg : config) (ticks : List Tick)
    (hparsed : ∀ t ∈ ticks, statusOf t.query ≠ none)
    (hmono : nonDecreasing ticks) (hshort : shortOutages cfg.delay ticks) :
    (∀ events ∈ (runTicks cfg zeroTime ticks).2, shutdownCount events = 0)
      ∧ (∀ pre tick post, ticks = pre ++ tick :: post →
          shutdownCount
              (checkStatus cfg tick.query (runTicks cfg zeroTime pre).1 tick.now).2 = 0
            ∧ (statusOf tick.query = some false →
                (runTicks cfg zeroTime (pre ++ [tick])).1 = zeroTime)) := by
  constructor
  · intro events hev
    obtain ⟨pre, tick, post, hsplit, rfl⟩ := mem_runTicks_traces cfg zeroTime ticks events hev
    exact no_shutdown_at_tick cfg ticks hparsed hmono hshort pre post tick hsplit
  · intro pre tick post hsplit
    refine ⟨no_shutdown_at_tick cfg ticks hparsed hmono hshort pre post tick hsplit, ?_⟩
    intro hon
    have hstep : (runTicks cfg zeroTime (pre ++ [tick])).1 =
        (checkStatus cfg tick.query (runTicks cfg zeroTime pre).1 tick.now).1 := by
      rw [runTicks_append_deadline]; rfl
    rw [hstep, checkStatus_deadline cfg tick.query _ tick.now false hon]
    by_cases hd : (runTicks cfg zeroTime pre).1 = zeroTime
    · simp [hd]
    · simp [hd]

/-- Witness of C8: the sequence of TestNoShutdown with a delay of 500ms, whose
only outage lasts 150ms. -/
theorem no_shutdown_for_short_outages_witness :
    shortOutages 500 testNoShutdownTicks
      ∧ nonDecreasing testNoShutdownTicks
      ∧ (∀ events ∈ (runTicks ⟨false, false, 10000, 500, 0, 0⟩ zeroTime testNoShutdownTicks).2,
          shutdownCount events = 0) := by
  have hshort : shortOutages 500 testNoShutdownTicks := by
    intro pre run post a b hsplit hmax ha hb
    have hbounds : ∀ t ∈ testNoShutdownTicks, statusOf t.query = some true →
        11000 ≤ t.now ∧ t.now ≤ 11150 := by decide
    have hsub : ∀ t ∈ run, t ∈ testNoShutdownTicks := by
      intro t ht
      rw [hsplit]
      exact List.mem_append_left _ (List.mem_append_right _ ht)
    have hamem : a ∈ run := List.mem_of_mem_head? ha
    have hbmem : b ∈ run := List.mem_of_mem_getLast? hb
    have h1 := hbounds a (hsub a hamem) (hmax.1.2 a hamem)
    have h2 := hbounds b (hsub b hbmem) (hmax.1.2 b hbmem)
    linarith [h1.1, h2.2]
  have hmono : nonDecreasing testNoShutdownTicks := by
    unfold nonDecreasing testNoShutdownTicks
    decide
  exact ⟨hshort, hmono,
    (no_shutdown_for_short_outages ⟨false, false, 10000, 500, 0, 0⟩ testNoShutdownTicks
      (by decide) hmono hshort).1⟩

/-! ## Repeated triggering and the online steady state: claims C11 and C12 -/

/-- Past a set deadline every offline tick invokes shutdown once. -/
theorem runTicks_timeout_traces (cfg : config) (d : Time) (ticks : List Tick)
    (hd : d ≠ zeroTime) (hall : ∀ t ∈ ticks, statusOf t.query = some true ∧ d < t.now) :
    (runTicks cfg d ticks).2.map shutdownCount = List.replicate ticks.length 1 := by
  induction ticks with
  | nil => rfl
  | cons tick rest ih =>
    have ht := hall tick (List.mem_cons_self _ _)
    have h1 : (checkStatus cfg tick.query d tick.now).1 = d := by
      rw [checkStatus_deadline cfg tick.query d tick.now true ht.1]; simp [hd]
    have h2 : shutdownCount (checkStatus cfg tick.query d tick.now).2 = 1 := by
      rw [checkStatus_shutdownCount cfg tick.query d tick.now true ht.1]
      rw [if_pos ⟨rfl, hd, ht.2⟩]
    rw [runTicks_cons, h1]
    simp only [List.map_cons, List.length_cons, List.replicate_succ, h2]
    rw [ih (fun t h => hall t (List.mem_cons_of_mem _ h))]

/-- C11: repeated triggering.  Once the deadline is set to d, for every
sequence of k consecutive ticks that all read offline at times strictly after d,
the shutdown action is invoked once on each of the k ticks, k times in total,
and the deadline is d after each tick; an online tick after them does not invoke
shutdown and clears the deadline, and the offline tick after that one does not
invoke shutdown either. -/
theorem repeated_triggering (cfg : config) (d : Time) (ticks : List Tick)
    (hd : d ≠ zeroTime) (hall : ∀ t ∈ ticks, statusOf t.query = some true ∧ d < t.now) :
    (runTicks cfg d ticks).2.map shutdownCount = List.replicate ticks.length 1
      ∧ ((runTicks cfg d ticks).2.map shutdownCount).sum = ticks.length
      ∧ (∀ k, (runTicks cfg d (ticks.take k)).1 = d)
      ∧ (∀ online : Tick, statusOf online.query = some false →
          shutdownCount
              (checkStatus cfg online.query (runTicks cfg d ticks).1 online.now).2 = 0
            ∧ (checkStatus cfg online.query (runTicks cfg d ticks).1 online.now).1 = zeroTime
            ∧ ∀ next : Tick, statusOf next.query = some true →
                shutdownCount (checkStatus cfg next.query
                  (checkStatus cfg online.query (runTicks cfg d ticks).1 online.now).1
                  next.now).2 = 0) := by
  have htr := runTicks_timeout_traces cfg d ticks hd hall
  have hkeep : (runTicks cfg d ticks).1 = d :=
    runTicks_offline_deadline cfg d ticks hd (fun t ht => (hall t ht).1)
  refine ⟨htr, ?_, ?_, ?_⟩
  · rw [htr]; simp
  · intro k
    exact runTicks_offline_deadline cfg d _ hd (fun t ht => (hall t (List.mem_of_mem_take ht)).1)
  · intro online hon
    have hclear : (checkStatus cfg online.query (runTicks cfg d ticks).1 online.now).1
        = zeroTime := by
      rw [hkeep, checkStatus_deadline cfg online.query d online.now false hon]; simp [hd]
    refine ⟨?_, hclear, ?_⟩
    · rw [checkStatus_shutdownCount cfg online.query _ online.now false hon]; simp
    · intro next hnext
      rw [hclear, checkStatus_shutdownCount cfg next.query zeroTime next.now true hnext]
      simp

/-- Witness of C11: deadline 1500, three offline ticks after it. -/
theorem repeated_triggering_witness :
    (runTicks ⟨false, false, 10, 500, 0, 0⟩ 1500
        [⟨(offlineState, none), 1501⟩, ⟨(offlineState, none), 1600⟩,
          ⟨(offlineState, none), 1700⟩]).2.map shutdownCount = List.replicate 3 1
      ∧ (runTicks ⟨false, false, 10, 500, 0, 0⟩ 1500
          ([⟨(offlineState, none), 1501⟩, ⟨(offlineState, none), 1600⟩,
            ⟨(offlineState, none), 1700⟩].take 2)).1 = 1500 :=
  have h := repeated_triggering ⟨false, false, 10, 500, 0, 0⟩ 1500
    [⟨(offlineState, none), 1501⟩, ⟨(offlineState, none), 1600⟩,
      ⟨(offlineState, none), 1700⟩] (by decide) (by decide)
  ⟨h.1, h.2.2.1 2⟩

/-- C12: the online steady state is a fixed point.  Starting from an unset
deadline, for every number of ticks, every grace delay and every choice of tick
times, if all ticks read online then the deadline is unset after every tick and
the shutdown action is never invoked. -/
theorem online_steady_state (cfg : config) (ticks : List Tick)
    (hall : ∀ t ∈ ticks, statusOf t.query = some false) :
    (∀ k, (runTicks cfg zeroTime (ticks.take k)).1 = zeroTime)
      ∧ (∀ events ∈ (runTicks cfg zeroTime ticks).2, shutdownCount events = 0) := by
  constructor
  · intro k
    apply runTicks_not_offline_deadline
    intro t ht
    rw [hall t (List.mem_of_mem_take ht)]
    simp
  · intro events hev
    obtain ⟨pre, tick, post, hsplit, rfl⟩ := mem_runTicks_traces cfg zeroTime ticks events hev
    have hon : statusOf tick.query = some false := hall tick (by rw [hsplit]; simp)
    rw [checkStatus_shutdownCount cfg tick.query _ tick.now false hon]
    simp

/-- Witness of C12: the first two ticks of TestNoShutdown, online one second
apart. -/
theorem online_steady_state_witness :
    (runTicks ⟨false, false, 10, 500, 0, 0⟩ zeroTime
        ([⟨(onlineState, none), 10000⟩, ⟨(onlineState, none), 11000⟩].take 2)).1 = zeroTime
      ∧ (∀ events ∈ (runTicks ⟨false, false, 10, 500, 0, 0⟩ zeroTime
          [⟨(onlineState, none), 10000⟩, ⟨(onlineState, none), 11000⟩]).2,
          shutdownCount events = 0) :=
  have h := online_steady_state ⟨false, false, 10, 500, 0, 0⟩
    [⟨(onlineState, none), 10000⟩, ⟨(onlineState, none), 11000⟩] (by decide)
  ⟨h.1 2, h.2⟩

/-! ## Frame and independence properties of one tick: claims C13 and C15 -/

/-- A tick that invokes shutdown leaves the deadline as it was and entered with
a set deadline. -/
theorem checkStatus_shutdown_frame (cfg : config) (query : List Char × Option QueryError)
    (deadline now : Time)
    (h : 0 < shutdownCount (checkStatus cfg query deadline now).2) :
    (checkStatus cfg query deadline now).1 = deadline ∧ deadline ≠ zeroTime := by
  cases hs : statusOf query with
  | none =>
    rw [(checkStatus_of_failed cfg query deadline now hs).2] at h
    exact absurd h (by decide)
  | some b =>
    rw [checkStatus_shutdownCount cfg query deadline now b hs] at h
    by_cases hc : b = true ∧ deadline ≠ zeroTime ∧ deadline < now
    · refine ⟨?_, hc.2.1⟩
      rw [checkStatus_deadline cfg query deadline now b hs]
      simp [hc.1, hc.2.1]
    · rw [if_neg hc] at h
      exact absurd h (by decide)

/-- C13: at most one of three actions happens per tick of checkStatus: the
deadline going from unset to set, the deadline going from set to unset, and the
shutdown action being invoked are pairwise exclusive for every input; every tick
that invokes shutdown leaves the deadline equal to its value on entry. -/
theorem one_action_per_tick (cfg : config) (query : List Char × Option QueryError)
    (deadline now : Time) :
    ¬ ((deadline = zeroTime ∧ (checkStatus cfg query deadline now).1 ≠ zeroTime)
        ∧ (deadline ≠ zeroTime ∧ (checkStatus cfg query deadline now).1 = zeroTime))
      ∧ ¬ ((deadline = zeroTime ∧ (checkStatus cfg query deadline now).1 ≠ zeroTime)
        ∧ 0 < shutdownCount (checkStatus cfg query deadline now).2)
      ∧ ¬ ((deadline ≠ zeroTime ∧ (checkStatus cfg query deadline now).1 = zeroTime)
        ∧ 0 < shutdownCount (checkStatus cfg query deadline now).2)
      ∧ (0 < shutdownCount (checkStatus cfg query deadline now).2 →
          (checkStatus cfg query deadline now).1 = deadline) := by
  refine ⟨?_, ?_, ?_, ?_⟩
  · rintro ⟨⟨h1, _⟩, ⟨h2, _⟩⟩
    exact h2 h1
  · rintro ⟨⟨h1, _⟩, h3⟩
    exact (checkStatus_shutdown_frame cfg query deadline now h3).2 h1
  · rintro ⟨⟨h1, h2⟩, h3⟩
    rw [(checkStatus_shutdown_frame cfg query deadline now h3).1] at h2
    exact h1 h2
  · intro h
    exact (checkStatus_shutdown_frame cfg query deadline now h).1

/-- C15: the diagnostic options are not behavioural: two configurations that
differ only in debug, trace and refresh give, for the same query result,
deadline on entry and current time, the same deadline after the tick and the
same number of shutdown invocations. -/
theorem diagnostics_not_behavioural (debug1 trace1 debug2 trace2 : Bool)
    (refresh1 refresh2 delay : Duration) (vendor product : Nat)
    (query : List Char × Option QueryError) (deadline now : Time) :
    (checkStatus ⟨debug1, trace1, refresh1, delay, vendor, product⟩ query deadline now).1
        = (checkStatus ⟨debug2, trace2, refresh2, delay, vendor, product⟩ query deadline now).1
      ∧ shutdownCount
          (checkStatus ⟨debug1, trace1, refresh1, delay, vendor, product⟩ query deadline now).2
        = shutdownCount
          (checkStatus ⟨debug2, trace2, refresh2, delay, vendor, product⟩ query deadline now).2
      := by
  cases hs : statusOf query with
  | none =>
    have h1 := checkStatus_of_failed ⟨debug1, trace1, refresh1, delay, vendor, product⟩
      query deadline now hs
    have h2 := checkStatus_of_failed ⟨debug2, trace2, refresh2, delay, vendor, product⟩
      query deadline now hs
    exact ⟨by rw [h1.1, h2.1], by rw [h1.2, h2.2]⟩
  | some b =>
    constructor
    · rw [checkStatus_deadline _ query deadline now b hs,
        checkStatus_deadline _ query deadline now b hs]
    · rw [checkStatus_shutdownCount _ query deadline now b hs,
        checkStatus_shutdownCount _ query deadline now b hs]

/-! ## The deadline mirrors the last parsed status: claim C16 -/

theorem lastStatus_append_singleton (pre : List Tick) (t : Tick) :
    lastStatus (pre ++ [t]) =
      match statusOf t.query with
      | some b => some b
      | none => lastStatus pre := by
  unfold lastStatus
  rw [List.foldl_append]
  rfl

/-- After a parsed tick the deadline is set exactly when the status was offline,
provided now + delay is not the zero time when the status is offline. -/
theorem checkStatus_set_iff (cfg : config) (query : List Char × Option QueryError)
    (deadline now : Time) (b : Bool) (hs : statusOf query = some b)
    (hne : b = true → now + cfg.delay ≠ zeroTime) :
    (checkStatus cfg query deadline now).1 ≠ zeroTime ↔ b = true := by
  rw [checkStatus_deadline cfg query deadline now b hs]
  by_cases hd : deadline = zeroTime <;> cases b <;> simp [hd]
  exact hne rfl

/-- C16: after every tick of checkStatus whose status was obtained and parsed,
and for which now + delay is not the zero time, the deadline is set if and only
if the status of that tick was offline; hence, over any sequence of ticks run
from the unset deadline in which now + delay is not the zero time at the ticks
parsed as offline, the deadline is set exactly when the most recent successfully
parsed status was offline, and unset when it was online or no status has been
parsed yet. -/
theorem deadline_set_iff_last_offline (cfg : config) (ticks : List Tick)
    (hne : ∀ t ∈ ticks, statusOf t.query = some true → t.now + cfg.delay ≠ zeroTime) :
    (∀ (query : List Char × Option QueryError) (deadline now : Time) (b : Bool),
        statusOf query = some b → now + cfg.delay ≠ zeroTime →
        ((checkStatus cfg query deadline now).1 ≠ zeroTime ↔ b = true))
      ∧ ((runTicks cfg zeroTime ticks).1 ≠ zeroTime ↔ lastStatus ticks = some true)
      ∧ (lastStatus ticks = some false ∨ lastStatus ticks = none →
          (runTicks cfg zeroTime ticks).1 = zeroTime) := by
  have hseq : (runTicks cfg zeroTime ticks).1 ≠ zeroTime ↔ lastStatus ticks = some true := by
    induction ticks using List.reverseRecOn with
    | nil => simp [runTicks_nil, lastStatus]
    | append_singleton pre t ih =>
      have hstep : (runTicks cfg zeroTime (pre ++ [t])).1 =
          (checkStatus cfg t.query (runTicks cfg zeroTime pre).1 t.now).1 := by
        rw [runTicks_append_deadline]; rfl
      have ih' := ih (fun x hx => hne x (List.mem_append_left _ hx))
      rw [hstep, lastStatus_append_singleton]
      cases hs : statusOf t.query with
      | none =>
        rw [(checkStatus_of_failed cfg t.query _ t.now hs).1]
        exact ih'
      | some b =>
        rw [checkStatus_set_iff cfg t.query _ t.now b hs
          (fun hb => hne t (by simp) (by rw [hs, hb]))]
        simp
  refine ⟨fun query deadline now b hs h =>
    checkStatus_set_iff cfg query deadline now b hs (fun _ => h), hseq, ?_⟩
  intro h
  by_contra hset
  have := hseq.mp hset
  rcases h with h | h <;> rw [h] at this <;> simp at this

/-- Witness of C16: the first four ticks of TestNoShutdown end offline with the
deadline set; all six end online with the deadline unset. -/
theorem deadline_set_iff_last_offline_witness :
    lastStatus (testNoShutdownTicks.take 4) = some true
      ∧ ((runTicks ⟨false, false, 10000, 500, 0, 0⟩ zeroTime (testNoShutdownTicks.take 4)).1
          ≠ zeroTime ↔ lastStatus (testNoShutdownTicks.take 4) = some true) :=
  ⟨by decide,
    (deadline_set_iff_last_offline ⟨false, false, 10000, 500, 0, 0⟩ (testNoShutdownTicks.take 4)
      (by decide)).2.1⟩

/-! ## The flag field as a number, and the fields before it: claims C14 and C17 -/

theorem binaryValue_cons (c : Char) (rest : List Char) :
    binaryValue (c :: rest)
      = (if c = '1' then 1 else 0) * 2 ^ rest.length + binaryValue rest := by
  unfold binaryValue
  simp only [binaryValueFrom]
  rw [binaryValueFrom_eq]
  simp [binaryValue]

/-- C14: the flag field is read as a right-aligned number.  For every line whose
last field is 1 to 7 binary digits parseFlags returns online and no error,
whatever the digits are (so for a field of seven 1 characters and for the field
1); for every line whose last field is exactly 8 binary digits parseFlags
returns no error, and offline if and only if the first character of the field
is 1. -/
theorem parseFlags_right_aligned (state f : List Char)
    (hlast : (Fields state).getLast? = some f) (hbin : isBinary f) :
    (1 ≤ f.length ∧ f.length ≤ 7 → parseFlags state = (false, none))
      ∧ (f.length = 8 →
          (parseFlags state).2 = none
            ∧ ((parseFlags state).1 = true ↔ f.head? = some '1'))
      ∧ parseFlags "1111111".toList = (false, none)
      ∧ parseFlags "1".toList = (false, none) := by
  refine ⟨?_, ?_, by decide, by decide⟩
  · rintro ⟨h1, h7⟩
    have hne : f ≠ [] := by
      intro h; rw [h] at h1; simp at h1
    have hlt := binaryValueFrom_lt f 0
    have hpow : 2 ^ f.length ≤ 2 ^ 7 := Nat.pow_le_pow_right (by omega) h7
    have hval : binaryValue f < 128 := by
      unfold binaryValue; omega
    rw [parseFlags_valid state f hlast ⟨hne, hbin, by omega⟩]
    have hbit := land_128_ne_zero (binaryValue f) (by omega)
    have hz : binaryValue f &&& 0b10000000 = 0 := by
      by_contra hnz
      have := hbit.mp hnz
      omega
    simp [hz]
  · intro h8
    obtain ⟨c, rest, rfl⟩ : ∃ c rest, f = c :: rest := by
      cases f with
      | nil => simp at h8
      | cons c rest => exact ⟨c, rest, rfl⟩
    have hrest : rest.length = 7 := by simpa using h8
    have hlow := binaryValue_lt_256 rest (by omega)
    have hlt := binaryValueFrom_lt rest 0
    have hlow7 : binaryValue rest < 128 := by
      unfold binaryValue; rw [hrest] at hlt; omega
    have hcons := binaryValue_cons c rest
    rw [hrest] at hcons
    have hval : binaryValue (c :: rest) ≤ 255 := by
      rw [hcons]; split_ifs <;> omega
    rw [parseFlags_valid state (c :: rest) hlast ⟨by simp, hbin, hval⟩]
    have hbit := land_128_ne_zero (binaryValue (c :: rest)) hval
    refine ⟨rfl, ?_⟩
    simp only [bne_iff_ne, List.head?_cons, Option.some.injEq]
    rw [hbit, hcons]
    by_cases hc : c = '1'
    · simp [hc]
    · simp [hc]
      omega

/-- Witness of C14 at the line `1111111`. -/
theorem parseFlags_right_aligned_witness :
    (Fields "1111111".toList).getLast? = some "1111111".toList
      ∧ (1 ≤ ("1111111".toList).length ∧ ("1111111".toList).length ≤ 7 →
          parseFlags "1111111".toList = (false, none)) :=
  ⟨by decide,
    (parseFlags_right_aligned "1111111".toList "1111111".toList (by decide) (by decide)).1⟩

/-- Every field that `fieldsLoop` yields is non-empty and free of white space,
provided the fields it starts from are. -/
theorem fieldsLoop_mem (s : List Char) (start : Option (List Char))
    (spans : List (List Char))
    (hspans : ∀ g ∈ spans, g ≠ [] ∧ ∀ c ∈ g, IsSpace c = false)
    (hstart : ∀ cur, start = some cur → cur ≠ [] ∧ ∀ c ∈ cur, IsSpace c = false) :
    ∀ g ∈ fieldsLoop s start spans, g ≠ [] ∧ ∀ c ∈ g, IsSpace c = false := by
  induction s generalizing start spans with
  | nil =>
    cases start with
    | none => simpa [fieldsLoop] using hspans
    | some cur =>
      intro g hg
      simp only [fieldsLoop, List.mem_append, List.mem_singleton] at hg
      rcases hg with hg | hg
      · exact hspans g hg
      · rw [hg]; exact hstart cur rfl
  | cons r rest ih =>
    by_cases hr : IsSpace r = true
    · cases start with
      | none =>
        simp only [fieldsLoop, hr, if_true]
        exact ih none spans hspans (by simp)
      | some cur =>
        simp only [fieldsLoop, hr, if_true]
        refine ih none (spans ++ [cur]) ?_ (by simp)
        intro g hg
        rcases List.mem_append.mp hg with hg | hg
        · exact hspans g hg
        · rw [List.mem_singleton] at hg; rw [hg]; exact hstart cur rfl
    · have hr' : IsSpace r = false := by simpa using hr
      cases start with
      | none =>
        simp only [fieldsLoop, hr', Bool.false_eq_true, if_false]
        refine ih (some [r]) spans hspans ?_
        intro cur hcur
        cases hcur
        exact ⟨by simp, by simpa using hr'⟩
      | some cur =>
        simp only [fieldsLoop, hr', Bool.false_eq_true, if_false]
        refine ih (some (cur ++ [r])) spans hspans ?_
        intro cur' hcur
        cases hcur
        refine ⟨by simp, ?_⟩
        intro c hc
        rcases List.mem_append.mp hc with hc | hc
        · exact (hstart cur rfl).2 c hc
        · rw [List.mem_singleton] at hc; rw [hc]; exact hr'

/-- Without white space the loop only extends the field being read. -/
theorem fieldsLoop_no_space (s cur : List Char) (spans : List (List Char))
    (hs : ∀ c ∈ s, IsSpace c = false) :
    fieldsLoop s (some cur) spans = spans ++ [cur ++ s] := by
  induction s generalizing cur with
  | nil => simp [fieldsLoop]
  | cons r rest ih =>
    have hr : IsSpace r = false := hs r (List.mem_cons_self _ _)
    simp only [fieldsLoop, hr, Bool.false_eq_true, if_false]
    rw [ih (cur ++ [r]) (fun c hc => hs c (List.mem_cons_of_mem _ hc))]
    simp

/-- A field of a line is the only field of itself. -/
theorem Fields_of_field (state f : List Char) (hf : f ∈ Fields state) : Fields f = [f] := by
  have hgood := fieldsLoop_mem state none [] (by simp) (by simp) f hf
  obtain ⟨hne, hns⟩ := hgood
  cases f with
  | nil => exact absurd rfl hne
  | cons c rest =>
    have hc : IsSpace c = false := hns c (List.mem_cons_self _ _)
    unfold Fields
    simp only [fieldsLoop, hc, Bool.false_eq_true, if_false]
    rw [fieldsLoop_no_space rest [c] [] (fun x hx => hns x (List.mem_cons_of_mem _ hx))]
    simp

/-- C17: only the last field of the line matters to parseFlags.  For every line
with at least one whitespace-delimited field, parseFlags on the line returns
what parseFlags returns on that last field alone: the same boolean and the same
success-or-error outcome; so two lines with the same last field get the same
result, whatever their preceding fields are. -/
theorem parseFlags_last_field_only (state f : List Char)
    (hlast : (Fields state).getLast? = some f) :
    parseFlags state = parseFlags f
      ∧ (parseFlags state).1 = (parseFlags f).1
      ∧ ((parseFlags state).2 = none ↔ (parseFlags f).2 = none)
      ∧ (∀ other, (Fields other).getLast? = some f → parseFlags other = parseFlags state) := by
  have hmem : f ∈ Fields state := List.mem_of_mem_getLast? hlast
  have hself : (Fields f).getLast? = some f := by
    rw [Fields_of_field state f hmem]; rfl
  have key : ∀ line, (Fields line).getLast? = some f →
      parseFlags line = match ParseUint f 2 8 with
        | (_, some err) => (false, some (ParseError.num err))
        | (flags, none) => (flags &&& 0b10000000 != 0, none) := by
    intro line hl
    simp only [parseFlags, hl]
  have heq : parseFlags state = parseFlags f := by
    rw [key state hlast, key f hself]
  refine ⟨heq, by rw [heq], by rw [heq], ?_⟩
  intro other hother
  rw [key other hother, key state hlast]

/-- Witness of C17 at the test line `offlineState` and its last field. -/
theorem parseFlags_last_field_only_witness :
    (Fields offlineState).getLast? = some "10001001".toList
      ∧ parseFlags offlineState = parseFlags "10001001".toList :=
  ⟨by decide, (parseFlags_last_field_only offlineState "10001001".toList (by decide)).1⟩

end Upsmon
